import Mathlib

/-!
Shallow embedding of the `bioprocs/utils/tsvio.py` TSV reader/writer and
synchronized multi-file reader (`SimRead`), together with theorems settling
the specification claims about them.

Conventions of the embedding:
* Python dynamic values appearing in records are modelled by the inductive
  `Value` (`VStr` for text, `VInt` for `int`, `VFloat` for `float`, the latter
  represented exactly as a rational, which is exact for the integral float
  literals these claims exercise).
* A file is modelled as the list of its lines, each line given without its
  trailing newline (Python `readline` + `rstrip` granularity).
* Fallible Python operations (exceptions) are modelled with `Option`/`Except`.
* Converters (`Conv`) map raw text to a typed value, `none` signalling the
  Python exception the converter would raise.
-/

namespace TsvIO

/-- A dynamic value held in a parsed record: Python str, int or float
(floats represented exactly as rationals). -/
inductive Value where
  | VStr (s : String)
  | VInt (n : Int)
  | VFloat (q : Rat)
deriving DecidableEq, Repr

open Value

/-- Python `str(v)` on a record value.  For `VFloat` this models `str` of a
float whose value is integral (for example `str(0.0) = "0.0"`), the only
float stringifications the claims exercise. -/
def valueStr : Value → String
  | VStr s => s
  | VInt n => toString n
  | VFloat q => if q.den = 1 then toString q.num ++ ".0" else toString q

/-- Python truthiness of a record value (`not r.NAME` style tests):
the empty string, `0` and `0.0` are falsy. -/
def pyFalsy : Value → Bool
  | VStr s => s = ""
  | VInt n => n = 0
  | VFloat q => q = 0

/-- Value of a non-empty all-digit character list, read in base 10. -/
def digitsVal (ds : List Char) : Option Nat :=
  if ds = [] then none
  else if ds.all Char.isDigit then
    some (ds.foldl (fun a c => a * 10 + (c.toNat - 48)) 0)
  else none

/-- Python `int(text)` for plain decimal literals with an optional leading
minus sign; other strings (and strings Python would reject) give `none`.
Python forms not exercised by the claims (surrounding whitespace, a leading
plus sign, underscores) are not modelled. -/
def pyInt (s : String) : Option Value :=
  match s.data with
  | '-' :: rest => (digitsVal rest).map (fun n => VInt (-(n : Int)))
  | l => (digitsVal l).map (fun n => VInt (n : Int))

/-- Python `float(text)` for decimal literals `[sign]digits[.digits]`,
represented exactly as a rational.  Exponent forms, `inf`/`nan` and
surrounding whitespace are not modelled; no claim evaluates this converter
on such inputs. -/
def pyFloat (s : String) : Option Value :=
  match s.splitOn "." with
  | [a] => (pyInt a).map (fun v => match v with | VInt n => VFloat (n : Rat) | v => v)
  | [a, b] =>
    if b.data.all Char.isDigit then
      match pyInt (if a = "" then "0" else a) with
      | some (VInt n) =>
        let frac : Rat :=
          ((b.data.foldl (fun acc c => acc * 10 + (c.toNat - 48)) 0 : Nat) : Rat) /
            ((10 : Rat) ^ b.length)
        some (VFloat (if a.data.headD ' ' = '-' then (n : Rat) - frac else (n : Rat) + frac))
      | _ => none
    else none
  | _ => none

/-- A converter from the schema: raw text to typed value, `none` modelling
the exception the Python callable would raise. -/
abbrev Conv := String → Option Value

/-- `TsvMeta`: the ordered schema, mapping each column name to an optional
converter (insertion order is the column order). -/
abbrev TsvMeta := List (String × Option Conv)

/-- `TsvRecord`: one parsed row, an ordered mapping from column name to
value. -/
abbrev TsvRecord := List (String × Value)

/-- Lookup of `record[key]` (first matching entry); `none` models the
Python `KeyError`. -/
def lookupRec : TsvRecord → String → Option Value
  | [], _ => none
  | (k, v) :: rest, key => if k = key then some v else lookupRec rest key

/-- Assignment `record[key] = val` on the ordered mapping: replaces the
first entry with that key in place, or appends a new entry. -/
def setRec : TsvRecord → String → Value → TsvRecord
  | [], key, nv => [(key, nv)]
  | (k, v) :: rest, key, nv =>
    if k = key then (k, nv) :: rest else (k, v) :: setRec rest key nv

/-- Assignment `meta[name] = conv` on the ordered schema (OrderedDict
semantics: replace in place if the key exists, else append). -/
def odSet : TsvMeta → String → Option Conv → TsvMeta
  | [], key, v => [(key, v)]
  | (k, v0) :: rest, key, v =>
    if k = key then (k, v) :: rest else (k, v0) :: odSet rest key v

/-- Python `line.startswith(p)`. -/
def pyStartsWith (p s : String) : Bool :=
  p.data.isPrefixOf s.data

/-- Core of Python `str.strip(chars)` on character lists: drop characters
belonging to `chars` from both ends. -/
def stripCore (chars l : List Char) : List Char :=
  ((l.dropWhile (fun c => chars.contains c)).reverse.dropWhile
    (fun c => chars.contains c)).reverse

/-- Python `s.strip(chars)`. -/
def pyStrip (chars s : String) : String :=
  ⟨stripCore chars.data s.data⟩

/-- Python `s.strip()` (whitespace on both ends; the ASCII whitespace set,
which covers every input the claims exercise). -/
def pyStripWs (s : String) : String :=
  pyStrip " \t\n\r\x0b\x0c" s

/-- Locate the first occurrence of `sep` in `l`: returns the part before it
and the part after it, or `none` when `sep` does not occur. -/
def chopSep (sep : List Char) : List Char → Option (List Char × List Char)
  | [] => none
  | c :: rest =>
    if sep.isPrefixOf (c :: rest) then some ([], (c :: rest).drop sep.length)
    else
      match chopSep sep rest with
      | none => none
      | some (before, after) => some (c :: before, after)

/-- Repeatedly chop at `sep`; `fuel` bounds the recursion (any fuel of at
least the number of produced fields gives the full split). -/
def splitCore (sep : List Char) : Nat → List Char → List (List Char)
  | 0, s => [s]
  | fuel + 1, s =>
    match chopSep sep s with
    | none => [s]
    | some (before, after) => before :: splitCore sep fuel after

/-- Python `s.split(sep)` for a non-empty separator. -/
def pySplit (sep s : String) : List String :=
  (splitCore sep.data (s.data.length + 1) s.data).map (fun l => ⟨l⟩)

/-- Core of Python `sep.join(parts)` on character lists. -/
def joinCore (sep : List Char) : List (List Char) → List Char
  | [] => []
  | [x] => x
  | x :: y :: rest => x ++ sep ++ joinCore sep (y :: rest)

/-- Python `sep.join(parts)`. -/
def pyJoin (sep : String) (parts : List String) : String :=
  ⟨joinCore sep.data (parts.map String.data)⟩

/-- Python `s.endswith(suffix)`. -/
def pyEndsWith (suf s : String) : Bool :=
  suf.data.reverse.isPrefixOf s.data.reverse

/-! ### TsvReaderBase -/

/-- One field of `TsvReaderBase._parse`: `record[key] = meta[key](line[i]) if
meta[key] else line[i]`, with an `IndexError` on a missing trailing field
caught and turned into the empty string (before any converter runs). -/
def parseField (oc : Option Conv) (fields : List String) (i : Nat) : Option Value :=
  match fields.get? i with
  | none => some (VStr "")
  | some s =>
    match oc with
    | none => some (VStr s)
    | some c => c s

/-- `TsvReaderBase._parse` from schema position `i` on: builds the record in
schema order; `none` models a converter raising. -/
def tsvParseFrom : TsvMeta → List String → Nat → Option TsvRecord
  | [], _, _ => some []
  | (k, oc) :: rest, fields, i =>
    match parseField oc fields i with
    | none => none
    | some v =>
      match tsvParseFrom rest fields (i + 1) with
      | none => none
      | some r => some ((k, v) :: r)

/-- `TsvReaderBase._parse`: apply each schema converter positionally to the
split line. -/
def tsvParse (meta : TsvMeta) (fields : List String) : Option TsvRecord :=
  tsvParseFrom meta fields 0

/-- The line-fetching loop of `TsvReaderBase.next`: skip comment-prefixed
lines (when the comment prefix is non-empty, mirroring Python truthiness),
then fail on a blank line (`StopIteration`), else return the line and the
remaining file.  An exhausted file behaves like a blank line (Python
`readline` returns the empty string at EOF). -/
def readNextLine (comment : String) : List String → Option (String × List String)
  | [] => none
  | l :: rest =>
    if comment ≠ "" ∧ pyStartsWith comment l = true then readNextLine comment rest
    else if l = "" then none
    else some (l, rest)

/-- `TsvReaderBase.next`: fetch the next non-comment line, split it by the
delimiter and parse it against the schema; `none` is `StopIteration` (or a
converter exception; the claims distinguish the cases by context). -/
def tsvNext (meta : TsvMeta) (delim comment : String) (lines : List String) :
    Option (TsvRecord × List String) :=
  match readNextLine comment lines with
  | none => none
  | some (l, rest) =>
    match tsvParse meta (pySplit delim l) with
    | none => none
    | some r => some (r, rest)

/-! ### TsvReaderBed -/

/-- `TsvReaderBed.META`: the six fixed BED columns with their converters. -/
def bedMeta : TsvMeta :=
  [("CHR", none), ("START", some pyInt), ("END", some pyInt),
   ("NAME", none), ("SCORE", some pyFloat), ("STRAND", none)]

/-- The defaulting phase of `TsvReaderBed._parse`: an empty NAME is replaced
by `BED<index>` (bumping the counter), an empty SCORE becomes `0.0`, an
empty STRAND becomes `+`.  The record always carries the six BED keys, so
the `getD` defaults are never reached. -/
def bedDefaults (index : Nat) (r : TsvRecord) : TsvRecord × Nat :=
  let nameV := (lookupRec r "NAME").getD (VStr "")
  let p :=
    if pyFalsy nameV then
      (setRec r "NAME" (VStr ("BED" ++ toString index)), index + 1)
    else (r, index)
  let scoreV := (lookupRec p.1 "SCORE").getD (VStr "")
  let r3 := if pyFalsy scoreV then setRec p.1 "SCORE" (VFloat 0) else p.1
  let strandV := (lookupRec r3 "STRAND").getD (VStr "")
  let r4 := if pyFalsy strandV then setRec r3 "STRAND" (VStr "+") else r3
  (r4, p.2)

/-- `TsvReaderBed._parse`: the base parse against the BED schema followed by
the defaulting phase, threading the name counter. -/
def bedParse (index : Nat) (fields : List String) : Option (TsvRecord × Nat) :=
  (tsvParse bedMeta fields).map (fun r => bedDefaults index r)

/-- `next` on a BED reader: reader state is the name counter (initialized to
1 at construction) plus the remaining file lines. -/
def bedNext (delim comment : String) (st : Nat × List String) :
    Option (TsvRecord × (Nat × List String)) :=
  match readNextLine comment st.2 with
  | none => none
  | some (l, rest) =>
    match bedParse st.1 (pySplit delim l) with
    | none => none
    | some p => some (p.1, (p.2, rest))

/-! ### TsvReaderHead -/

/-- The converter lookup of `TsvReaderHead.__init__` for one header name:
`None` unless `tmeta` is a non-empty mapping holding a callable for the
name (the mapping is modelled as already holding callables). -/
def tmetaLookup (tmeta : List (String × Conv)) (h : String) : Option Conv :=
  match tmeta.find? (fun p => p.1 == h) with
  | none => none
  | some p => some p.2

/-- `TsvReaderHead.__init__` after the base construction: read the header
line (stripping `#`, tabs, newlines, spaces), peek the first data line, and
when that line has exactly one more field than the header, insert a
synthetic `ROWNAMES` column at the front.  Returns the derived schema and
the remaining file (the rewind checkpoint sits right after the header). -/
def headInit (delim : String) (tmeta : List (String × Conv)) (lines : List String) :
    TsvMeta × List String :=
  let headerLine := lines.headD ""
  let rest := lines.tail
  let header := pySplit delim (pyStrip "#\t\n " headerLine)
  let row1 := pySplit delim (pyStripWs (rest.headD ""))
  let header2 := if row1.length = header.length + 1 then "ROWNAMES" :: header else header
  let metatype := header2.map (fun h => (h, tmetaLookup tmeta h))
  (metatype.foldl (fun m kv => odSet m kv.1 kv.2) [], rest)

/-! ### TsvWriterBase and TsvWriterBed -/

/-- How a file path is opened: plain or through `gzip`. -/
inductive FileMode where
  | plain
  | gzip
deriving DecidableEq, Repr

/-- Open-mode selection in `TsvReaderBase.__init__`: `openfunc` becomes
`gzip.open` when the path ends in `.gz`, and the file is opened with
`openfunc`. -/
def readerOpenMode (infile : String) : FileMode :=
  if pyEndsWith ".gz" infile then FileMode.gzip else FileMode.plain

/-- The `openfunc` computed by `TsvWriterBase.__init__` (`gzip.open` when
the path ends in `.gz`). -/
def writerIntendedOpenMode (outfile : String) : FileMode :=
  if pyEndsWith ".gz" outfile then FileMode.gzip else FileMode.plain

/-- How `TsvWriterBase.__init__` actually opens the destination: it computes
`openfunc` but then calls `open(outfile, 'w')` directly, so the destination
is always opened plain and `openfunc` is dead. -/
def writerOpenMode (outfile : String) : FileMode :=
  FileMode.plain

/-- The writer state relevant to the claims: its delimiter and its schema. -/
structure WriterState where
  delimit : String
  meta : TsvMeta

/-- `TsvWriterBase.__init__(outfile, delimit)`: stores the delimiter, starts
with an empty schema. -/
def tsvWriterBaseInit (delimit : String) : WriterState :=
  ⟨delimit, []⟩

/-- `TsvWriterBed.__init__(outfile, delimit)`: calls the base constructor
WITHOUT forwarding `delimit` (`super().__init__(outfile)`), so the stored
delimiter is always the default tab; then pre-populates the schema with the
fixed BED columns. -/
def tsvWriterBedInit (delimit : String) : WriterState :=
  ⟨"\t", bedMeta⟩

/-- The `record[key]` lookups of `TsvWriterBase.write`, in schema order;
`none` models the `KeyError` on a missing field. -/
def seqLookup (r : TsvRecord) : TsvMeta → Option (List Value)
  | [] => some []
  | kc :: rest =>
    match lookupRec r kc.1 with
    | none => none
    | some v =>
      match seqLookup r rest with
      | none => none
      | some vs => some (v :: vs)

/-- `TsvWriterBase.write(record)` (no per-call delimiter override): the line
written, without its trailing newline. -/
def tsvWriteLine (w : WriterState) (record : TsvRecord) : Option String :=
  match seqLookup record w.meta with
  | none => none
  | some vs => some (pyJoin w.delimit (vs.map valueStr))

/-- `TsvWriterBase.writeHead(prefix)` with no per-call delimiter override and
no transform: the prefix followed by the schema keys joined by the stored
delimiter. -/
def writeHead (w : WriterState) (pfx : String) : String :=
  pfx ++ pyJoin w.delimit (w.meta.map Prod.fst)

/-- Write one record with a writer using schema `meta` and delimiter
`delim`, then read the produced line back with a reader using the same
schema and delimiter (and comment prefix `comment`): the record the reader
yields. -/
def tsvRoundTrip (meta : TsvMeta) (delim comment : String) (r : TsvRecord) :
    Option TsvRecord :=
  match tsvWriteLine ⟨delim, meta⟩ r with
  | none => none
  | some line =>
    match tsvNext meta delim comment [line] with
    | none => none
    | some p => some p.1

/-! ### SimRead -/

/-- A current line of one stream inside `SimRead.run`, as the list of its
fields (the positional row shape on which `line[0]` in `_defaultMatch`
denotes the first field). -/
abbrev Line := List String

/-- Lexicographic strict order on character lists by code point, the order
Python uses to compare strings. -/
def lexLt : List Char → List Char → Bool
  | [], [] => false
  | [], _ :: _ => true
  | _ :: _, [] => false
  | a :: as, b :: bs =>
    if a.toNat < b.toNat then true
    else if a.toNat = b.toNat then lexLt as bs
    else false

/-- Python `a < b` on strings. -/
def pyStrLt (a b : String) : Bool :=
  lexLt a.data b.data

/-- Python `min(a, b)` on strings (the first argument wins ties). -/
def pyMin (a b : String) : String :=
  if pyStrLt b a then b else a

/-- Python `min` over a non-empty list of strings; the empty-list value is
never consulted by `_defaultMatch`, which guards against it. -/
def listMin : List String → String
  | [] => ""
  | x :: xs => xs.foldl pyMin x

/-- Python `data.index(a)`: position of the first occurrence of `a`.  A
missing element would raise `ValueError` in Python; `_defaultMatch` only
calls this on the minimum, which is always present. -/
def pyIndex (a : String) : List String → Nat
  | [] => 0
  | x :: xs => if x = a then 0 else pyIndex a xs + 1

/-- `SimRead._defaultMatch`: extract each line's first field, compute the
minimum; `-1` when every first field equals the minimum, else the index of
the first occurrence of the minimum (`data.index(mind)`).  `none` models the
exceptions Python would raise on an empty line (`IndexError`) or on no lines
at all (`ValueError` from `min`). -/
def defaultMatch (lines : List Line) : Option Int :=
  if lines.isEmpty then none
  else if lines.any (fun l => l.isEmpty) then none
  else
    let data := lines.map (fun l => l.headD "")
    let mind := listMin data
    if data.count mind = lines.length then some (-1)
    else some ((pyIndex mind data : Nat) : Int)

/-- Position of the first element different from `a` (0 when all equal). -/
def pyIndexNot (a : String) : List String → Nat
  | [] => 0
  | x :: xs => if x ≠ a then 0 else pyIndexNot a xs + 1

/-- Modelled from the spec sentence for the default match policy: "otherwise
return the index of the first stream whose first field does NOT equal the
minimum".  Stated only to compare against the code's `defaultMatch`. -/
def specDefaultMatch (lines : List Line) : Option Int :=
  if lines.isEmpty then none
  else if lines.any (fun l => l.isEmpty) then none
  else
    let data := lines.map (fun l => l.headD "")
    let mind := listMin data
    if data.count mind = lines.length then some (-1)
    else some ((pyIndexNot mind data : Nat) : Int)

/-- The in-flight state of the `SimRead.run` loop: the current line of each
stream and the remaining records of each stream. -/
structure SimState where
  lines : List Line
  streams : List (List Line)
deriving DecidableEq, Repr

/-- Outcome of one iteration of the `SimRead.run` loop; `fired` records the
argument tuple of the callback invocation performed during the iteration,
if any (the callback runs before the advance is attempted, so a `stop` or a
`fail` can still carry a fired callback). -/
inductive StepResult where
  | stop (fired : Option (List Line))
  | fail (fired : Option (List Line))
  | next (fired : Option (List Line)) (st : SimState)
deriving DecidableEq, Repr

/-- One iteration of the `SimRead.run` while-loop: break when some current
line is empty (Python truthiness of `all(lines)`); call the match function
(`.fail` when it raises); on a negative result invoke the callback with the
current lines (`fired`) and reset the advance target to stream 0; then fetch
the next record of the target stream, breaking on its exhaustion
(`StopIteration`).  An out-of-range target index models the `IndexError`
Python would raise. -/
def simStep (matchFn : List Line → Option Int) (st : SimState) : StepResult :=
  if !(st.lines.all (fun l => !l.isEmpty)) then StepResult.stop none
  else
    match matchFn st.lines with
    | none => StepResult.fail none
    | some m =>
      let fired := if m < 0 then some st.lines else none
      let mi := if m < 0 then 0 else m.toNat
      match st.streams.get? mi with
      | none => StepResult.fail fired
      | some [] => StepResult.stop fired
      | some (rec :: rest) =>
        StepResult.next fired ⟨st.lines.set mi rec, st.streams.set mi rest⟩

/-- Prepend a fired callback tuple, if any, onto the (reversed) collection
of callback invocations. -/
def pushFired (fired : Option (List Line)) (acc : List (List Line)) :
    List (List Line) :=
  match fired with
  | some ls => ls :: acc
  | none => acc

/-- Iterate `simStep`, collecting the argument tuples of every callback
invocation; `none` on a propagated exception or on fuel exhaustion (a fuel
of one more than the total number of buffered records never exhausts, since
every continuing step consumes one record). -/
def simRun (matchFn : List Line → Option Int) :
    Nat → SimState → List (List Line) → Option (List (List Line))
  | 0, _, _ => none
  | fuel + 1, st, acc =>
    match simStep matchFn st with
    | StepResult.stop fired => some (pushFired fired acc).reverse
    | StepResult.fail _ => none
    | StepResult.next fired st2 => simRun matchFn fuel st2 (pushFired fired acc)

/-- The initial fetch `[next(reader) for reader in self.readers]`: the first
record of every stream, or `none` when some stream is empty
(`StopIteration`, making `run` return at once). -/
def initLines : List (List Line) → Option (List Line × List (List Line))
  | [] => some ([], [])
  | s :: rest =>
    match s with
    | [] => none
    | x :: xs =>
      match initLines rest with
      | none => none
      | some (ls, ss) => some (x :: ls, xs :: ss)

/-- Total number of buffered records across all streams. -/
def totalLen (ss : List (List Line)) : Nat :=
  ss.foldl (fun a l => a + l.length) 0

/-- `SimRead.run`: raise at once when no `do` callback was supplied (before
any record is fetched); return cleanly when the initial fetch exhausts a
stream; otherwise drive the loop, returning the collected callback argument
tuples.  `hasDo` is the Python truthiness of `self.do`. -/
def simReadRun (hasDo : Bool) (matchFn : List Line → Option Int)
    (streams : List (List Line)) : Except String (List (List Line)) :=
  if !hasDo then
    Except.error "AttributeError: You would like to do something when lines are matched."
  else
    match initLines streams with
    | none => Except.ok []
    | some (lines, rests) =>
      match simRun matchFn (totalLen streams + 1) ⟨lines, rests⟩ [] with
      | none => Except.error "exception propagated from the match function"
      | some out => Except.ok out

/-! ### Format dispatch (TsvReader.__new__ / TsvWriter.__new__) -/

/-- The reader class names defined in the module (the `globals()` consulted
by `TsvReader.__new__`). -/
def tsvReaderClasses : List String :=
  ["TsvReaderBase", "TsvReaderBed", "TsvReaderBed12", "TsvReaderBedpe",
   "TsvReaderBedx", "TsvReaderHead", "TsvReaderNometa"]

/-- The writer class names defined in the module (the `globals()` consulted
by `TsvWriter.__new__`). -/
def tsvWriterClasses : List String :=
  ["TsvWriterBase", "TsvWriterNometa", "TsvWriterBed"]

/-- The case normalization `ftype[0].upper() + ftype[1:].lower()` applied to
a non-empty format tag. -/
def pyCapTag (f : String) : String :=
  match f.data with
  | [] => ""
  | c :: rest => ⟨c.toUpper :: rest.map Char.toLower⟩

/-- `TsvReader.__new__` format resolution: the empty tag picks the base
reader, otherwise the case-normalized class name is looked up among the
module classes, raising `NoSuchReader` when absent — before the chosen class
(and hence any file open) is invoked. -/
def tsvReaderResolve (ftype : String) : Except String String :=
  if ftype = "" then Except.ok "TsvReaderBase"
  else
    let klass := "TsvReader" ++ pyCapTag ftype
    if klass ∈ tsvReaderClasses then Except.ok klass
    else Except.error ("NoSuchReader: " ++ klass)

/-- `TsvWriter.__new__` format resolution, mirroring the reader. -/
def tsvWriterResolve (ftype : String) : Except String String :=
  if ftype = "" then Except.ok "TsvWriterBase"
  else
    let klass := "TsvWriter" ++ pyCapTag ftype
    if klass ∈ tsvWriterClasses then Except.ok klass
    else Except.error ("NoSuchWriter: " ++ klass)

/-! ### TsvMeta.add -/

/-- The second component of a `(name, converter)` tuple handed to
`TsvMeta.add`, as the Python dynamic value it is: a callable, or a
non-callable with its truthiness (`None`, `0`, `''` are the falsy ones). -/
inductive ConvArg where
  | callable (c : Conv)
  | nonCallable (truthy : Bool)

/-- One positional argument of `TsvMeta.add`: a bare name, a list of names,
or a `(name, converter)` tuple. -/
inductive MetaArg where
  | bare (name : String)
  | names (l : List String)
  | pair (name : String) (conv : ConvArg)

/-- `TsvMeta.add(*args)`: bare names and name lists get no converter; a
tuple raises `TypeError` when its value is truthy and not callable
(`if arg[1] and not callable(arg[1])`), otherwise the value is stored (a
falsy value acts as an absent converter downstream).  Entries added before
a raising argument are lost here, while Python keeps them; the claims only
concern the raising itself. -/
def tsvMetaAdd (m : TsvMeta) : List MetaArg → Except String TsvMeta
  | [] => Except.ok m
  | a :: rest =>
    match a with
    | MetaArg.bare k => tsvMetaAdd (odSet m k none) rest
    | MetaArg.names ks => tsvMetaAdd (ks.foldl (fun mm k => odSet mm k none) m) rest
    | MetaArg.pair k ca =>
      match ca with
      | ConvArg.callable c => tsvMetaAdd (odSet m k (some c)) rest
      | ConvArg.nonCallable true => Except.error "TypeError: Expect callable for meta value."
      | ConvArg.nonCallable false => tsvMetaAdd (odSet m k none) rest

/-! ## Theorems -/

/-- C4: the claim says a Writer whose destination ends in `.gz` opens the
file for gzip-compressed writing; the code computes the gzip `openfunc` for
such a path (as the Reader does, and as it plainly intends) but then opens
the destination with a plain `open`, so the output of a `.gz`-suffixed
Writer is not compressed. -/
theorem writer_gz_opens_plain :
    writerOpenMode "out.gz" = FileMode.plain ∧
    writerIntendedOpenMode "out.gz" = FileMode.gzip ∧
    readerOpenMode "out.gz" = FileMode.gzip :=
  ⟨rfl, by decide, by decide⟩

/-- C5: over streams with first-column keys `[1,2,3]` and `[1,3]`, the
default-match scan fires the callback exactly twice — once with both lines
at key 1 and once with both at key 3 — skips key 2, and terminates cleanly
(an `ok` result) once a stream is exhausted. -/
theorem simRead_missing_key_trace :
    simReadRun true defaultMatch [[["1"], ["2"], ["3"]], [["1"], ["3"]]] =
      Except.ok [[["1"], ["1"]], [["3"], ["3"]]] :=
  rfl

/-- C8: with header line `A\tB` and data line `r1\t1\t2` (one extra field),
the Head reader derives the schema `[ROWNAMES, A, B]` (no converters when
none are supplied) and yields the record
`{ROWNAMES: "r1", A: "1", B: "2"}` with raw string values. -/
theorem head_reader_rownames :
    headInit "\t" [] ["A\tB", "r1\t1\t2"] =
      ([("ROWNAMES", none), ("A", none), ("B", none)], ["r1\t1\t2"]) ∧
    tsvNext [("ROWNAMES", none), ("A", none), ("B", none)] "\t" "#" ["r1\t1\t2"] =
      some ([("ROWNAMES", VStr "r1"), ("A", VStr "1"), ("B", VStr "2")], []) :=
  ⟨rfl, rfl⟩

/-- C10: the claim says the BED Writer constructed with delimiter `d`
behaves like the base Writer with delimiter `d` apart from its
pre-populated schema; but `TsvWriterBed.__init__` does not forward the
delimiter to the base constructor, so a BED Writer built with `","` still
stores and joins with the default tab, unlike the base Writer built with
`","` and the BED schema. -/
theorem bed_writer_ignores_delimit :
    (tsvWriterBedInit ",").delimit = "\t" ∧
    (tsvWriterBedInit ",").meta = bedMeta ∧
    (tsvWriterBaseInit ",").delimit = "," ∧
    tsvWriteLine (tsvWriterBedInit ",")
      [("CHR", VStr "chr1"), ("START", VInt 1), ("END", VInt 2),
       ("NAME", VStr "n"), ("SCORE", VFloat 0), ("STRAND", VStr "+")] =
      some "chr1\t1\t2\tn\t0.0\t+" ∧
    tsvWriteLine ⟨(tsvWriterBaseInit ",").delimit, bedMeta⟩
      [("CHR", VStr "chr1"), ("START", VInt 1), ("END", VInt 2),
       ("NAME", VStr "n"), ("SCORE", VFloat 0), ("STRAND", VStr "+")] =
      some "chr1,1,2,n,0.0,+" ∧
    writeHead (tsvWriterBedInit ",") "" = "CHR\tSTART\tEND\tNAME\tSCORE\tSTRAND" :=
  ⟨rfl, rfl, rfl, rfl, rfl, rfl⟩

/-- C1 counterexample: on lines with first fields `"2"` and `"1"` the code
returns index 1 — the first stream whose first field EQUALS the minimum —
while the claim predicts index 0, the first stream whose first field does
not equal the minimum. -/
theorem defaultMatch_counterexample :
    defaultMatch [["2"], ["1"]] = some 1 ∧
    specDefaultMatch [["2"], ["1"]] = some 0 ∧
    defaultMatch [["2"], ["1"]] ≠ specDefaultMatch [["2"], ["1"]] := by
  refine ⟨by decide, by decide, by decide⟩

/-- C2 counterexample: a record whose keys are exactly the schema keys and
whose converters are the identity (raw text), but whose first value
contains the delimiter: writing then reading back yields a different
record, refuting the unconditional round-trip claim. -/
theorem roundTrip_counterexample :
    ([("A", VStr "x\ty"), ("B", VStr "z")] : TsvRecord).map Prod.fst =
      ([("A", none), ("B", none)] : TsvMeta).map Prod.fst ∧
    tsvRoundTrip [("A", none), ("B", none)] "\t" "#"
      [("A", VStr "x\ty"), ("B", VStr "z")] =
      some [("A", VStr "x"), ("B", VStr "y")] ∧
    tsvRoundTrip [("A", none), ("B", none)] "\t" "#"
      [("A", VStr "x\ty"), ("B", VStr "z")] ≠
      some [("A", VStr "x\ty"), ("B", VStr "z")] :=
  ⟨rfl, rfl, by decide⟩

/-- C9 counterexample: supplying the non-callable Python value `0` (falsy)
as a converter tuple value does not raise the claimed `TypeError` — the
guard `if arg[1] and not callable(arg[1])` lets every falsy non-callable
through, storing it as an absent converter. -/
theorem metaAdd_falsy_nonCallable_accepted :
    tsvMetaAdd [] [MetaArg.pair "A" (ConvArg.nonCallable false)] =
      Except.ok [("A", none)] ∧
    ∀ e, tsvMetaAdd [] [MetaArg.pair "A" (ConvArg.nonCallable false)] ≠
      Except.error e := by
  refine ⟨rfl, fun e h => ?_⟩
  rw [show tsvMetaAdd [] [MetaArg.pair "A" (ConvArg.nonCallable false)] =
        Except.ok [("A", none)] from rfl] at h
  exact Except.noConfusion h

lemma data_eq_nil_iff (s : String) : s.data = [] ↔ s = "" := by
  constructor
  · intro h
    cases s with
    | mk d => cases h; rfl
  · intro h
    subst h
    rfl

lemma pyStartsWith_blank (comment : String) (hc : comment ≠ "") :
    pyStartsWith comment "" = false := by
  unfold pyStartsWith
  cases hd : comment.data with
  | nil => exact absurd ((data_eq_nil_iff comment).1 hd) hc
  | cons c cs => rfl

lemma readNextLine_blank (comment : String) (hc : comment ≠ "") :
    ∀ (skipped : List String), (∀ l ∈ skipped, pyStartsWith comment l = true) →
    ∀ rest, readNextLine comment (skipped ++ "" :: rest) = none := by
  intro skipped
  induction skipped with
  | nil =>
    intro _ rest
    show readNextLine comment ("" :: rest) = none
    unfold readNextLine
    rw [if_neg, if_pos rfl]
    intro hcon
    rw [pyStartsWith_blank comment hc] at hcon
    exact Bool.noConfusion hcon.2
  | cons l ls ih =>
    intro hall rest
    show readNextLine comment (l :: (ls ++ "" :: rest)) = none
    unfold readNextLine
    rw [if_pos ⟨hc, hall l (List.mem_cons_self l ls)⟩]
    exact ih (fun x hx => hall x (List.mem_cons_of_mem l hx)) rest

/-- C6: producing the next record when the next non-comment line is blank
raises the end-of-sequence signal (`none` models `StopIteration`), whatever
lines follow the blank one — so a legitimate embedded blank line truncates
iteration there, exactly as at end of file. -/
theorem blank_line_raises (meta : TsvMeta) (delim comment : String)
    (hc : comment ≠ "") (skipped rest : List String)
    (hskip : ∀ l ∈ skipped, pyStartsWith comment l = true) :
    tsvNext meta delim comment (skipped ++ "" :: rest) = none := by
  unfold tsvNext
  rw [readNextLine_blank comment hc skipped hskip rest]

/-- C6 witness: a comment line, then a blank line, then a further data line:
the reader signals end of sequence at the blank line. -/
theorem blank_line_raises_witness :
    tsvNext bedMeta "\t" "#" (["#track"] ++ "" :: ["chr1\t1\t2"]) = none :=
  blank_line_raises bedMeta "\t" "#" (by decide) ["#track"] ["chr1\t1\t2"]
    (by intro l hl; simp only [List.mem_singleton] at hl; subst hl; decide)

/-- C9 (amended): unknown format tags make the reader and writer entry
points fail with `NoSuchReader`/`NoSuchWriter` before the chosen class is
invoked; `SimRead.run` without a `do` callback fails with the configuration
error whatever the streams hold, before any record is fetched; and a
`(name, converter)` tuple whose value is truthy and not callable makes
`TsvMeta.add` raise `TypeError` (a falsy non-callable value is instead
accepted as an absent converter, which is the amendment), while callable
converters are stored. -/
theorem config_errors_fail_fast :
    (∀ ftype, ftype ≠ "" → "TsvReader" ++ pyCapTag ftype ∉ tsvReaderClasses →
      tsvReaderResolve ftype =
        Except.error ("NoSuchReader: " ++ ("TsvReader" ++ pyCapTag ftype))) ∧
    (∀ ftype, ftype ≠ "" → "TsvWriter" ++ pyCapTag ftype ∉ tsvWriterClasses →
      tsvWriterResolve ftype =
        Except.error ("NoSuchWriter: " ++ ("TsvWriter" ++ pyCapTag ftype))) ∧
    (∀ matchFn streams, simReadRun false matchFn streams =
      Except.error
        "AttributeError: You would like to do something when lines are matched.") ∧
    (∀ m k rest, tsvMetaAdd m (MetaArg.pair k (ConvArg.nonCallable true) :: rest) =
      Except.error "TypeError: Expect callable for meta value.") ∧
    (∀ m k c rest, tsvMetaAdd m (MetaArg.pair k (ConvArg.callable c) :: rest) =
      tsvMetaAdd (odSet m k (some c)) rest) ∧
    (∀ m k rest, tsvMetaAdd m (MetaArg.pair k (ConvArg.nonCallable false) :: rest) =
      tsvMetaAdd (odSet m k none) rest) := by
  refine ⟨fun ftype h1 h2 => ?_, fun ftype h1 h2 => ?_,
          fun _ _ => rfl, fun _ _ _ => rfl, fun _ _ _ _ => rfl, fun _ _ _ => rfl⟩
  · unfold tsvReaderResolve
    rw [if_neg h1, if_neg h2]
  · unfold tsvWriterResolve
    rw [if_neg h1, if_neg h2]

/-- C9 witness: the unrecognized tag `xyz` is rejected by both entry
points. -/
theorem config_errors_fail_fast_witness :
    tsvReaderResolve "xyz" =
      Except.error ("NoSuchReader: " ++ ("TsvReader" ++ pyCapTag "xyz")) ∧
    tsvWriterResolve "xyz" =
      Except.error ("NoSuchWriter: " ++ ("TsvWriter" ++ pyCapTag "xyz")) :=
  ⟨config_errors_fail_fast.1 "xyz" (by decide) (by decide),
   config_errors_fail_fast.2.1 "xyz" (by decide) (by decide)⟩

/-- C3: in a loop state where all current lines are non-empty and the match
function signals a match (negative value), the step fires the callback with
the current lines and then advances ONLY stream 0: its buffered head
becomes the current line, and every stream `i ≠ 0` keeps both its current
line and its buffered records. -/
theorem simStep_match_advances_stream0
    (matchFn : List Line → Option Int) (st : SimState) (m : Int)
    (rec : Line) (rest : List Line)
    (hlen : st.lines.length = st.streams.length)
    (hall : st.lines.all (fun l => !l.isEmpty) = true)
    (hm : matchFn st.lines = some m) (hneg : m < 0)
    (h0 : st.streams.get? 0 = some (rec :: rest)) :
    simStep matchFn st =
      StepResult.next (some st.lines) ⟨st.lines.set 0 rec, st.streams.set 0 rest⟩ ∧
    (st.lines.set 0 rec).get? 0 = some rec ∧
    (st.streams.set 0 rest).get? 0 = some rest ∧
    ∀ i, i ≠ 0 → (st.lines.set 0 rec).get? i = st.lines.get? i ∧
      (st.streams.set 0 rest).get? i = st.streams.get? i := by
  have hstreams0 : 0 < st.streams.length := by
    cases hs : st.streams with
    | nil => rw [hs] at h0; exact Option.noConfusion h0
    | cons a l => simp [hs]
  have hlines0 : 0 < st.lines.length := hlen ▸ hstreams0
  refine ⟨?_, ?_, ?_, ?_⟩
  · unfold simStep
    rw [hall]
    simp only [Bool.not_true, Bool.false_eq_true, if_false, hm]
    rw [if_pos hneg, if_pos hneg, h0]
  · rw [List.get?_set_eq_of_lt rec hlines0]
  · rw [List.get?_set_eq_of_lt rest hstreams0]
  · intro i hi
    exact ⟨List.get?_set_ne rec st.lines (fun h => hi h.symm),
           List.get?_set_ne rest st.streams (fun h => hi h.symm)⟩

/-- C3 witness: a concrete matched state over two streams; only stream 0
advances (to `["2"]`), stream 1 keeps line `["1"]` and its buffer. -/
theorem simStep_match_advances_stream0_witness :
    simStep defaultMatch ⟨[["1"], ["1"]], [[["2"]], [["9"]]]⟩ =
      StepResult.next (some [["1"], ["1"]])
        ⟨([["1"], ["1"]] : List Line).set 0 ["2"],
         ([[["2"]], [["9"]]] : List (List Line)).set 0 []⟩ ∧
    (([["1"], ["1"]] : List Line).set 0 ["2"]).get? 0 = some ["2"] ∧
    (([[["2"]], [["9"]]] : List (List Line)).set 0 []).get? 0 = some [] ∧
    ∀ i, i ≠ 0 →
      (([["1"], ["1"]] : List Line).set 0 ["2"]).get? i =
        ([["1"], ["1"]] : List Line).get? i ∧
      (([[["2"]], [["9"]]] : List (List Line)).set 0 []).get? i =
        ([[["2"]], [["9"]]] : List (List Line)).get? i :=
  simStep_match_advances_stream0 defaultMatch ⟨[["1"], ["1"]], [[["2"]], [["9"]]]⟩
    (-1) ["2"] [] (by decide) (by decide) (by decide) (by decide) (by decide)

/-- C7: the BED defaulting phase replaces a falsy NAME with `BED<counter>`
and bumps the counter (and only then), replaces a falsy SCORE with the
float `0.0` and a falsy STRAND with `+`; concretely, two consecutive rows
`chr1\t100\t200` yield `BED1` then `BED2` with SCORE `0.0` and STRAND `+`,
the counter starting at 1 and ending at 3. -/
theorem bed_defaulting :
    (∀ (idx : Nat) (v1 v2 v3 v4 v5 v6 : Value),
      bedDefaults idx
        [("CHR", v1), ("START", v2), ("END", v3),
         ("NAME", v4), ("SCORE", v5), ("STRAND", v6)] =
      ([("CHR", v1), ("START", v2), ("END", v3),
        ("NAME", if pyFalsy v4 then VStr ("BED" ++ toString idx) else v4),
        ("SCORE", if pyFalsy v5 then VFloat 0 else v5),
        ("STRAND", if pyFalsy v6 then VStr "+" else v6)],
       if pyFalsy v4 then idx + 1 else idx)) ∧
    bedNext "\t" "#" (1, ["chr1\t100\t200", "chr1\t100\t200"]) =
      some ([("CHR", VStr "chr1"), ("START", VInt 100), ("END", VInt 200),
             ("NAME", VStr "BED1"), ("SCORE", VFloat 0), ("STRAND", VStr "+")],
            (2, ["chr1\t100\t200"])) ∧
    bedNext "\t" "#" (2, ["chr1\t100\t200"]) =
      some ([("CHR", VStr "chr1"), ("START", VInt 100), ("END", VInt 200),
             ("NAME", VStr "BED2"), ("SCORE", VFloat 0), ("STRAND", VStr "+")],
            (3, [])) := by
  refine ⟨fun idx v1 v2 v3 v4 v5 v6 => ?_, rfl, rfl⟩
  cases h4 : pyFalsy v4 <;> cases h5 : pyFalsy v5 <;> cases h6 : pyFalsy v6 <;>
    simp [bedDefaults, lookupRec, setRec, h4, h5, h6]

/-! ### Lexicographic order facts for the default match policy -/

lemma lexLt_irrefl : ∀ l, lexLt l l = false := by
  intro l
  induction l with
  | nil => rfl
  | cons a as ih =>
    unfold lexLt
    rw [if_neg (Nat.lt_irrefl a.toNat), if_pos rfl]
    exact ih

lemma lexLt_cons (a b : Char) (as bs : List Char) :
    lexLt (a :: as) (b :: bs) =
      if a.toNat < b.toNat then true
      else if a.toNat = b.toNat then lexLt as bs
      else false := rfl

lemma lexLt_trans : ∀ a b c, lexLt a b = true → lexLt b c = true → lexLt a c = true := by
  intro a
  induction a with
  | nil =>
    intro b c hab hbc
    cases b with
    | nil => exact hbc
    | cons y ys =>
      cases c with
      | nil => exact Bool.noConfusion hbc
      | cons z zs => rfl
  | cons x xs ih =>
    intro b c hab hbc
    cases b with
    | nil => exact Bool.noConfusion hab
    | cons y ys =>
      cases c with
      | nil => exact Bool.noConfusion hbc
      | cons z zs =>
        rw [lexLt_cons] at hab hbc ⊢
        split_ifs at hab hbc ⊢ <;>
          first
            | rfl
            | exact Bool.noConfusion hab
            | exact Bool.noConfusion hbc
            | omega
            | exact ih ys zs hab hbc

lemma lexLt_total : ∀ a b, lexLt a b = false → lexLt b a = false → a = b := by
  intro a
  induction a with
  | nil =>
    intro b hab _
    cases b with
    | nil => rfl
    | cons y ys => exact Bool.noConfusion hab
  | cons x xs ih =>
    intro b hab hba
    cases b with
    | nil => exact Bool.noConfusion hba
    | cons y ys =>
      rw [lexLt_cons] at hab hba
      split_ifs at hab hba with h1 h2 h3 h4 <;>
        first
          | exact Bool.noConfusion hab
          | exact Bool.noConfusion hba
          | omega
          | (have hchar : x = y := Char.ext (UInt32.toNat.inj h2)
             exact hchar ▸ congrArg (x :: ·) (ih ys hab hba))

lemma lexLe_trans (a b c : List Char) (hba : lexLt b a = false)
    (hcb : lexLt c b = false) : lexLt c a = false := by
  cases hca : lexLt c a with
  | false => rfl
  | true =>
    cases hbc : lexLt b c with
    | false =>
      have hbceq : b = c := lexLt_total b c hbc hcb
      rw [hbceq] at hba
      rw [hca] at hba
      exact hba
    | true =>
      have := lexLt_trans b c a hbc hca
      rw [this] at hba
      exact Bool.noConfusion hba

lemma foldl_pyMin_mem : ∀ (xs : List String) (a : String),
    xs.foldl pyMin a = a ∨ xs.foldl pyMin a ∈ xs := by
  intro xs
  induction xs with
  | nil => intro a; exact Or.inl rfl
  | cons x xs ih =>
    intro a
    rcases ih (pyMin a x) with h | h
    · rw [List.foldl_cons, h]
      unfold pyMin
      by_cases hlt : pyStrLt x a = true
      · rw [if_pos hlt]
        exact Or.inr (List.mem_cons_self x xs)
      · rw [if_neg hlt]
        exact Or.inl rfl
    · exact Or.inr (List.mem_cons_of_mem x h)

lemma foldl_pyMin_le : ∀ (xs : List String) (a : String),
    ∀ y ∈ a :: xs, pyStrLt y (xs.foldl pyMin a) = false := by
  intro xs
  induction xs with
  | nil =>
    intro a y hy
    rcases List.mem_singleton.1 hy with rfl
    exact lexLt_irrefl y.data
  | cons x xs ih =>
    intro a y hy
    rw [List.foldl_cons]
    have hminle : pyStrLt a (pyMin a x) = false ∧ pyStrLt x (pyMin a x) = false := by
      unfold pyMin
      by_cases hlt : pyStrLt x a = true
      · rw [if_pos hlt]
        constructor
        · unfold pyStrLt at hlt ⊢
          cases hax : lexLt a.data x.data with
          | false => rfl
          | true =>
            have := lexLt_trans x.data a.data x.data hlt hax
            rw [lexLt_irrefl] at this
            exact Bool.noConfusion this
        · exact lexLt_irrefl x.data
      · rw [if_neg hlt]
        exact ⟨lexLt_irrefl a.data, Bool.eq_false_iff.2 hlt⟩
    have hm := ih (pyMin a x) (pyMin a x) (List.mem_cons_self _ _)
    rcases List.mem_cons.1 hy with heq | hy2
    · rw [heq]
      exact lexLe_trans _ _ _ hm hminle.1
    · rcases List.mem_cons.1 hy2 with heq2 | hy3
      · rw [heq2]
        exact lexLe_trans _ _ _ hm hminle.2
      · exact ih (pyMin a x) y (List.mem_cons_of_mem _ hy3)

lemma listMin_mem (data : List String) (hne : data ≠ []) : listMin data ∈ data := by
  cases data with
  | nil => exact absurd rfl hne
  | cons x xs =>
    show xs.foldl pyMin x ∈ x :: xs
    rcases foldl_pyMin_mem xs x with h | h
    · rw [h]; exact List.mem_cons_self x xs
    · exact List.mem_cons_of_mem x h

lemma listMin_le (data : List String) (x : String) (hx : x ∈ data) :
    pyStrLt x (listMin data) = false := by
  cases data with
  | nil => exact absurd hx (List.not_mem_nil x)
  | cons a xs => exact foldl_pyMin_le xs a x hx

lemma pyIndex_lt_length (a : String) : ∀ (l : List String), a ∈ l →
    pyIndex a l < l.length := by
  intro l
  induction l with
  | nil => intro h; exact absurd h (List.not_mem_nil a)
  | cons x xs ih =>
    intro h
    unfold pyIndex
    by_cases hx : x = a
    · rw [if_pos hx]
      exact Nat.succ_pos _
    · rw [if_neg hx]
      have hmem : a ∈ xs := by
        rcases List.mem_cons.1 h with rfl | h2
        · exact absurd rfl hx
        · exact h2
      exact Nat.succ_lt_succ (ih hmem)

lemma pyIndex_get? (a : String) : ∀ (l : List String), a ∈ l →
    l.get? (pyIndex a l) = some a := by
  intro l
  induction l with
  | nil => intro h; exact absurd h (List.not_mem_nil a)
  | cons x xs ih =>
    intro h
    unfold pyIndex
    by_cases hx : x = a
    · rw [if_pos hx, hx]
      rfl
    · rw [if_neg hx]
      have hmem : a ∈ xs := by
        rcases List.mem_cons.1 h with rfl | h2
        · exact absurd rfl hx
        · exact h2
      exact ih hmem

lemma pyIndex_first (a : String) : ∀ (l : List String) (j : Nat),
    j < pyIndex a l → l.get? j ≠ some a := by
  intro l
  induction l with
  | nil =>
    intro j hj
    intro hcon
    exact Option.noConfusion (List.get?_nil ▸ hcon)
  | cons x xs ih =>
    intro j hj
    unfold pyIndex at hj
    by_cases hx : x = a
    · rw [if_pos hx] at hj
      exact absurd hj (Nat.not_lt_zero j)
    · rw [if_neg hx] at hj
      cases j with
      | zero =>
        intro hcon
        exact hx (Option.some.inj hcon)
      | succ j2 =>
        exact ih j2 (Nat.lt_of_succ_lt_succ hj)

/-- C1 (amended): the default match function, on non-empty lines, computes
the minimum of the first fields; it returns the negative value `-1` exactly
when every first field equals that minimum, and otherwise it returns the
index of the FIRST STREAM WHOSE FIRST FIELD EQUALS THE MINIMUM (ties
resolved by earliest index) — not, as claimed, the first stream whose
first field differs from the minimum. -/
theorem defaultMatch_amended (lines : List Line) (hne : lines ≠ [])
    (hall : ∀ l ∈ lines, l ≠ []) :
    ∃ mind, mind ∈ lines.map (fun l => l.headD "") ∧
      (∀ x ∈ lines.map (fun l => l.headD ""), pyStrLt x mind = false) ∧
      ((∀ x ∈ lines.map (fun l => l.headD ""), x = mind) →
        defaultMatch lines = some (-1)) ∧
      ((¬ ∀ x ∈ lines.map (fun l => l.headD ""), x = mind) →
        ∃ i : Nat, defaultMatch lines = some (i : Int) ∧
          i < lines.length ∧
          (lines.map (fun l => l.headD "")).get? i = some mind ∧
          ∀ j, j < i → (lines.map (fun l => l.headD "")).get? j ≠ some mind) := by
  set data := lines.map (fun l => l.headD "") with hdata
  have hdne : data ≠ [] := by
    intro h
    exact hne (List.map_eq_nil_iff.1 h)
  have hlen : data.length = lines.length := List.length_map lines _
  have hempty : lines.isEmpty = false := by
    cases lines with
    | nil => exact absurd rfl hne
    | cons a l => rfl
  have hany : lines.any (fun l => l.isEmpty) = false := by
    rw [List.any_eq_false]
    intro l hl
    cases hl2 : l with
    | nil => exact absurd hl2 (hall l hl)
    | cons a as => simp
  refine ⟨listMin data, listMin_mem data hdne, fun x hx => listMin_le data x hx, ?_, ?_⟩
  · intro halleq
    unfold defaultMatch
    rw [hempty, hany]
    simp only [Bool.false_eq_true, if_false]
    rw [← hdata, if_pos]
    exact (List.count_eq_length.2 (fun b hb => (halleq b hb).symm)).trans hlen
  · intro hnall
    refine ⟨pyIndex (listMin data) data, ?_, ?_, ?_, ?_⟩
    · unfold defaultMatch
      rw [hempty, hany]
      simp only [Bool.false_eq_true, if_false]
      rw [← hdata, if_neg]
      intro hcount
      exact hnall (fun x hx => (List.count_eq_length.1 (hlen ▸ hcount) x hx).symm)
    · exact hlen ▸ pyIndex_lt_length (listMin data) data (listMin_mem data hdne)
    · exact pyIndex_get? (listMin data) data (listMin_mem data hdne)
    · exact fun j hj => pyIndex_first (listMin data) data j hj

/-- C1 witness: at lines with first fields `"2"` and `"1"` the minimum is
`"1"`, not all fields equal it, and the returned index points at the first
field equal to the minimum. -/
theorem defaultMatch_amended_witness :
    ∃ mind, mind ∈ ([["2"], ["1"]] : List Line).map (fun l => l.headD "") ∧
      (∀ x ∈ ([["2"], ["1"]] : List Line).map (fun l => l.headD ""),
        pyStrLt x mind = false) ∧
      ((∀ x ∈ ([["2"], ["1"]] : List Line).map (fun l => l.headD ""), x = mind) →
        defaultMatch [["2"], ["1"]] = some (-1)) ∧
      ((¬ ∀ x ∈ ([["2"], ["1"]] : List Line).map (fun l => l.headD ""), x = mind) →
        ∃ i : Nat, defaultMatch [["2"], ["1"]] = some (i : Int) ∧
          i < ([["2"], ["1"]] : List Line).length ∧
          (([["2"], ["1"]] : List Line).map (fun l => l.headD "")).get? i = some mind ∧
          ∀ j, j < i →
            (([["2"], ["1"]] : List Line).map (fun l => l.headD "")).get? j ≠ some mind) :=
  defaultMatch_amended [["2"], ["1"]] (by decide)
    (by intro l hl; fin_cases hl <;> decide)

/-! ### Split/join inversion for the round-trip claim -/

lemma mk_data (s : String) : String.mk s.data = s := rfl

lemma map_mk_data (ss : List String) : (ss.map String.data).map String.mk = ss := by
  induction ss with
  | nil => rfl
  | cons s st ih => simp [ih, mk_data]

lemma chopSep_not_mem (c : Char) : ∀ (l : List Char), c ∉ l → chopSep [c] l = none := by
  intro l
  induction l with
  | nil => intro _; rfl
  | cons x xs ih =>
    intro h
    have hx : c ≠ x := fun he => h (he ▸ List.mem_cons_self x xs)
    have hxs : c ∉ xs := fun hm => h (List.mem_cons_of_mem x hm)
    unfold chopSep
    rw [if_neg, ih hxs]
    simp [List.isPrefixOf]
    exact fun he => hx he

lemma chopSep_found (c : Char) : ∀ (f rest : List Char), c ∉ f →
    chopSep [c] (f ++ c :: rest) = some (f, rest) := by
  intro f
  induction f with
  | nil =>
    intro rest _
    show chopSep [c] (c :: rest) = some ([], rest)
    unfold chopSep
    rw [if_pos]
    · rfl
    · simp [List.isPrefixOf]
  | cons x f ih =>
    intro rest h
    have hx : c ≠ x := fun he => h (he ▸ List.mem_cons_self x f)
    have hf : c ∉ f := fun hm => h (List.mem_cons_of_mem x hm)
    show chopSep [c] (x :: (f ++ c :: rest)) = some (x :: f, rest)
    unfold chopSep
    rw [if_neg, ih rest hf]
    simp [List.isPrefixOf]
    exact fun he => hx he

lemma splitCore_joinCore (c : Char) : ∀ (fs : List (List Char)) (fuel : Nat),
    fs ≠ [] → (∀ f ∈ fs, c ∉ f) → fs.length ≤ fuel →
    splitCore [c] fuel (joinCore [c] fs) = fs := by
  intro fs
  induction fs with
  | nil => intro fuel h; exact absurd rfl h
  | cons f fs ih =>
    intro fuel _ hmem hfuel
    cases fs with
    | nil =>
      cases fuel with
      | zero => exact absurd hfuel (by simp)
      | succ fuel2 =>
        show splitCore [c] (fuel2 + 1) f = [f]
        unfold splitCore
        rw [chopSep_not_mem c f (hmem f (List.mem_cons_self f []))]
    | cons g gs =>
      cases fuel with
      | zero => exact absurd hfuel (by simp)
      | succ fuel2 =>
        have hjoin : joinCore [c] (f :: g :: gs) = f ++ c :: joinCore [c] (g :: gs) := by
          show f ++ [c] ++ joinCore [c] (g :: gs) = f ++ c :: joinCore [c] (g :: gs)
          rw [List.append_assoc]
          rfl
        rw [hjoin]
        show splitCore [c] (fuel2 + 1) (f ++ c :: joinCore [c] (g :: gs)) = f :: g :: gs
        unfold splitCore
        rw [chopSep_found c f _ (hmem f (List.mem_cons_self f _))]
        show f :: splitCore [c] fuel2 (joinCore [c] (g :: gs)) = f :: g :: gs
        rw [ih fuel2 (by simp) (fun x hx => hmem x (List.mem_cons_of_mem f hx))
          (by simpa using Nat.le_of_succ_le_succ hfuel)]

lemma joinCore_length_ge (c : Char) : ∀ (fs : List (List Char)),
    fs.length ≤ (joinCore [c] fs).length + 1 := by
  intro fs
  induction fs with
  | nil => simp
  | cons f fs ih =>
    cases fs with
    | nil => simp
    | cons g gs =>
      have hjoin : joinCore [c] (f :: g :: gs) = f ++ c :: joinCore [c] (g :: gs) := by
        show f ++ [c] ++ joinCore [c] (g :: gs) = f ++ c :: joinCore [c] (g :: gs)
        rw [List.append_assoc]
        rfl
      rw [hjoin]
      simp only [List.length_cons, List.length_append] at ih ⊢
      omega

lemma pySplit_pyJoin (c : Char) (ss : List String) (hne : ss ≠ [])
    (hnc : ∀ s ∈ ss, c ∉ s.data) :
    pySplit (String.mk [c]) (pyJoin (String.mk [c]) ss) = ss := by
  unfold pySplit pyJoin
  have hdata : (String.mk [c]).data = [c] := rfl
  rw [hdata]
  have hmem : ∀ f ∈ ss.map String.data, c ∉ f := by
    intro f hf
    rcases List.mem_map.1 hf with ⟨s, hs, rfl⟩
    exact hnc s hs
  have hlen : (ss.map String.data).length ≤
      (joinCore [c] (ss.map String.data)).length + 1 := joinCore_length_ge c _
  rw [splitCore_joinCore c (ss.map String.data) _
    (by simpa using hne) hmem hlen]
  exact map_mk_data ss

/-! ### Lookup alignment and parse reconstruction -/

lemma seqLookup_skip (k : String) (v : Value) (rt : TsvRecord) :
    ∀ (mt : TsvMeta), (∀ kc ∈ mt, kc.1 ≠ k) →
    seqLookup ((k, v) :: rt) mt = seqLookup rt mt := by
  intro mt
  induction mt with
  | nil => intro _; rfl
  | cons kc mt ih =>
    intro h
    show seqLookup ((k, v) :: rt) (kc :: mt) = seqLookup rt (kc :: mt)
    unfold seqLookup
    rw [show lookupRec ((k, v) :: rt) kc.1 = lookupRec rt kc.1 by
          show (if k = kc.1 then some v else lookupRec rt kc.1) = lookupRec rt kc.1
          rw [if_neg (fun he => h kc (List.mem_cons_self kc mt) he.symm)],
        ih (fun x hx => h x (List.mem_cons_of_mem kc hx))]

lemma seqLookup_aligned : ∀ (mt : TsvMeta) (rt : TsvRecord),
    rt.map Prod.fst = mt.map Prod.fst → (mt.map Prod.fst).Nodup →
    seqLookup rt mt = some (rt.map Prod.snd) := by
  intro mt
  induction mt with
  | nil =>
    intro rt hkeys _
    cases rt with
    | nil => rfl
    | cons p rt2 => exact absurd hkeys (by simp)
  | cons kc mt ih =>
    intro rt hkeys hnd
    cases rt with
    | nil => exact absurd hkeys (by simp)
    | cons p rt2 =>
      obtain ⟨pk, pv⟩ := p
      simp only [List.map_cons, List.cons.injEq] at hkeys
      have hnd2 := hnd
      rw [List.map_cons, List.nodup_cons] at hnd2
      show seqLookup ((pk, pv) :: rt2) (kc :: mt) = some (pv :: rt2.map Prod.snd)
      unfold seqLookup
      rw [show lookupRec ((pk, pv) :: rt2) kc.1 = some pv by
            show (if pk = kc.1 then some pv else lookupRec rt2 kc.1) = some pv
            rw [if_pos hkeys.1]]
      rw [seqLookup_skip pk pv rt2 mt
            (fun x hx he => hnd2.1 (hkeys.1 ▸ he ▸ List.mem_map_of_mem Prod.fst hx))]
      rw [ih rt2 hkeys.2 hnd2.2]

/-- Idempotence of a schema converter on a record value: an absent
converter needs the value to already be raw text, a present converter must
send the stringified value back to the value itself. -/
def convRound (oc : Option Conv) (v : Value) : Prop :=
  match oc with
  | none => ∃ s, v = VStr s
  | some cv => cv (valueStr v) = some v

lemma tsvParseFrom_reconstruct : ∀ (mt : TsvMeta) (rt : TsvRecord)
    (fields : List String) (i : Nat),
    List.Forall₂ (fun kc p => kc.1 = p.1 ∧ convRound kc.2 p.2) mt rt →
    (∀ j, fields.get? (i + j) = (rt.map (fun p => valueStr p.2)).get? j) →
    tsvParseFrom mt fields i = some rt := by
  intro mt
  induction mt with
  | nil =>
    intro rt fields i hf _
    have hrt : rt = [] := List.forall₂_nil_left_iff.1 hf
    subst hrt
    rfl
  | cons kc mt ih =>
    intro rt fields i hf hget
    rcases List.forall₂_cons_left_iff.1 hf with ⟨p, rt2, hp, hrest, rfl⟩
    obtain ⟨kk, koc⟩ := kc
    obtain ⟨ppk, ppv⟩ := p
    have hi : fields.get? i = some (valueStr ppv) := by
      have h0 := hget 0
      rw [Nat.add_zero] at h0
      simpa using h0
    have hpf : parseField koc fields i = some ppv := by
      unfold parseField
      rw [hi]
      cases hkoc : koc with
      | none =>
        show some (VStr (valueStr ppv)) = some ppv
        obtain ⟨s2, hs2⟩ := (show ∃ t, ppv = VStr t from by
          have h2 : convRound koc ppv := hp.2
          rw [hkoc] at h2
          exact h2)
        rw [hs2]
        rfl
      | some cv =>
        show cv (valueStr ppv) = some ppv
        have h2 : convRound koc ppv := hp.2
        rw [hkoc] at h2
        exact h2
    show tsvParseFrom ((kk, koc) :: mt) fields i = some ((ppk, ppv) :: rt2)
    unfold tsvParseFrom
    rw [hpf, ih rt2 fields (i + 1) hrest ?hfields]
    · have hkey : kk = ppk := hp.1
      show some ((kk, ppv) :: rt2) = some ((ppk, ppv) :: rt2)
      rw [hkey]
    case hfields =>
      intro j
      have hj := hget (j + 1)
      rw [show i + (j + 1) = i + 1 + j by omega] at hj
      simpa using hj

/-- C2 (amended): the round trip `read(write(r)) = r` holds for a schema
and record with matching keys once the values themselves survive the
textual encoding: the delimiter is a single character (other than newline)
occurring in no stringified field, converters are idempotent on the
record's values (raw-text fields hold strings), the written line is
non-empty and is not taken for a comment.  The unconditional claim fails
(see the counterexample) precisely when these conditions are violated. -/
theorem tsv_round_trip (meta : TsvMeta) (r : TsvRecord) (c : Char) (comment : String)
    (hkeys : r.map Prod.fst = meta.map Prod.fst)
    (hnd : (meta.map Prod.fst).Nodup)
    (hconv : List.Forall₂ (fun kc p => kc.1 = p.1 ∧ convRound kc.2 p.2) meta r)
    (hchar : ∀ p ∈ r, c ∉ (valueStr p.2).data ∧ '\n' ∉ (valueStr p.2).data)
    (hcnl : c ≠ '\n')
    (hne : meta ≠ [])
    (hblank : pyJoin (String.mk [c]) ((r.map Prod.snd).map valueStr) ≠ "")
    (hcomment : comment = "" ∨
      pyStartsWith comment (pyJoin (String.mk [c]) ((r.map Prod.snd).map valueStr)) = false) :
    tsvRoundTrip meta (String.mk [c]) comment r = some r := by
  have hw : tsvWriteLine ⟨String.mk [c], meta⟩ r =
      some (pyJoin (String.mk [c]) ((r.map Prod.snd).map valueStr)) := by
    unfold tsvWriteLine
    rw [seqLookup_aligned meta r hkeys hnd]
  have hrne : r ≠ [] := by
    intro h
    rw [h] at hkeys
    exact hne (List.map_eq_nil_iff.1 hkeys.symm)
  have hr : readNextLine comment
      [pyJoin (String.mk [c]) ((r.map Prod.snd).map valueStr)] =
      some (pyJoin (String.mk [c]) ((r.map Prod.snd).map valueStr), []) := by
    unfold readNextLine
    rcases hcomment with hc | hc
    · rw [if_neg fun hcon => hcon.1 hc, if_neg hblank]
    · rw [if_neg fun hcon => by rw [hc] at hcon; exact Bool.noConfusion hcon.2,
          if_neg hblank]
  have hsplit : pySplit (String.mk [c])
      (pyJoin (String.mk [c]) ((r.map Prod.snd).map valueStr)) =
      (r.map Prod.snd).map valueStr := by
    apply pySplit_pyJoin
    · intro h
      have : r = [] := by
        rcases r with _ | ⟨p, r2⟩
        · rfl
        · simp at h
      exact hrne this
    · intro s hs
      rcases List.mem_map.1 hs with ⟨v, hv, rfl⟩
      rcases List.mem_map.1 hv with ⟨p, hp, rfl⟩
      exact (hchar p hp).1
  have hparse : tsvParse meta ((r.map Prod.snd).map valueStr) = some r := by
    unfold tsvParse
    apply tsvParseFrom_reconstruct meta r _ 0 hconv
    intro j
    rw [Nat.zero_add, List.map_map]
    rfl
  have hnext : tsvNext meta (String.mk [c]) comment
      [pyJoin (String.mk [c]) ((r.map Prod.snd).map valueStr)] = some (r, []) := by
    unfold tsvNext
    rw [hr]
    show (match tsvParse meta (pySplit (String.mk [c])
        (pyJoin (String.mk [c]) ((r.map Prod.snd).map valueStr))) with
      | none => none
      | some r2 => some (r2, ([] : List String))) = some (r, [])
    rw [hsplit, hparse]
  unfold tsvRoundTrip
  rw [hw]
  show (match tsvNext meta (String.mk [c]) comment
      [pyJoin (String.mk [c]) ((r.map Prod.snd).map valueStr)] with
    | none => none
    | some p => some p.1) = some r
  rw [hnext]

/-- C2 witness: a two-column schema (an `int` converter and a raw column)
and a matching record round-trip through a tab-delimited write and read. -/
theorem tsv_round_trip_witness :
    tsvRoundTrip [("A", some pyInt), ("B", none)] (String.mk ['\t']) "#"
      [("A", VInt 7), ("B", VStr "z")] =
      some [("A", VInt 7), ("B", VStr "z")] :=
  tsv_round_trip [("A", some pyInt), ("B", none)] [("A", VInt 7), ("B", VStr "z")]
    '\t' "#" (by decide) (by decide)
    (List.Forall₂.cons ⟨rfl, show pyInt (valueStr (VInt 7)) = some (VInt 7) by decide⟩
      (List.Forall₂.cons ⟨rfl, ⟨"z", rfl⟩⟩ List.Forall₂.nil))
    (by
      intro p hp
      rcases List.mem_cons.1 hp with rfl | hp2
      · exact ⟨by decide, by decide⟩
      · rcases List.mem_cons.1 hp2 with rfl | hp3
        · exact ⟨by decide, by decide⟩
        · exact absurd hp3 (List.not_mem_nil p))
    (by decide) (fun h => List.noConfusion h) (by decide)
    (Or.inr (by decide))

end TsvIO
